import Mathlib

/-!
Verification of the topology-control core of topocontrol.py.

The program loads a collection of n geometry records (indices 0..n-1),
runs a single-geometry classifier (selfcross, invalid), a pairwise
relationship classifier (duplicate, overlap, near, with a priority
cascade), aggregates all flagged indices into a union set, and extracts
the flagged subset sorted ascending by index.

The geometry library (shapely) is an external collaborator; its
predicates are modelled as an abstract adapter over an arbitrary
geometry type. The distance threshold (a Python float compared with strict less
than) is modelled as a rational number. The collection
gdf.geometry.iloc is modelled as an index function geo : Nat -> G
together with the record count n.
-/

/-- The geometry predicate adapter: the surface of the geometry library
used by topocontrol.py. isLineString and isBaseGeometry model the two
runtime isinstance checks; the remaining fields model the shapely
predicates of the same names. -/
structure Adapter (G : Type) where
  isLineString : G → Bool
  isBaseGeometry : G → Bool
  is_simple : G → Bool
  is_valid : G → Bool
  equals : G → G → Bool
  intersects : G → G → Bool
  touches : G → G → Bool
  distance : G → G → ℚ

/-- The mutable category containers of the run: the dict
sets = \x7bkey: set() for key in [selfcross, invalid, duplicate, overlap, near]\x7d
together with sets[all]. Each holds geometry indices. -/
structure Cats where
  selfcross : Finset ℕ
  invalid : Finset ℕ
  duplicate : Finset ℕ
  overlap : Finset ℕ
  near : Finset ℕ
  all : Finset ℕ
deriving DecidableEq

/-- The initial state: every category set empty. -/
def Cats.empty : Cats := ⟨∅, ∅, ∅, ∅, ∅, ∅⟩

/-- The six counts printed in the summary report, in report order:
selfcross, invalid, duplicate, overlap, near, all. -/
def Cats.counts (s : Cats) : ℕ × ℕ × ℕ × ℕ × ℕ × ℕ :=
  (s.selfcross.card, s.invalid.card, s.duplicate.card, s.overlap.card,
   s.near.card, s.all.card)

/-- One iteration of the single-geometry loop (topocontrol.py lines
104-111): if the geometry is a LineString and not simple, add idx to
selfcross and all; elif it is a BaseGeometry and not valid, add idx to
invalid and all; else leave the state unchanged. -/
def singleStep {G : Type} (A : Adapter G) (g : G) (idx : ℕ) (s : Cats) : Cats :=
  if A.isLineString g && !A.is_simple g then
    { s with selfcross := insert idx s.selfcross, all := insert idx s.all }
  else if A.isBaseGeometry g && !A.is_valid g then
    { s with invalid := insert idx s.invalid, all := insert idx s.all }
  else s

/-- One iteration of the pairwise loop (topocontrol.py lines 115-123):
the duplicate / overlap / near cascade, adding both indices of a
matching pair to the matching category set and to all. -/
def pairStep {G : Type} (A : Adapter G) (t : ℚ) (i j : ℕ) (g1 g2 : G)
    (s : Cats) : Cats :=
  if A.equals g1 g2 then
    { s with duplicate := insert i (insert j s.duplicate),
             all := insert i (insert j s.all) }
  else if A.intersects g1 g2 && !A.touches g1 g2 then
    { s with overlap := insert i (insert j s.overlap),
             all := insert i (insert j s.all) }
  else if A.distance g1 g2 < t then
    { s with near := insert i (insert j s.near),
             all := insert i (insert j s.all) }
  else s

/-- The category (if any) the cascade assigns to an ordered pair of
geometries. -/
inductive PairCat : Type where
  | dup : PairCat
  | ovl : PairCat
  | nr : PairCat
deriving DecidableEq

/-- The cascade as a classification function: duplicate if equal, else
overlap if intersecting and not touching, else near if the distance is
strictly below the threshold, else none. -/
def classifyPair {G : Type} (A : Adapter G) (t : ℚ) (g1 g2 : G) :
    Option PairCat :=
  if A.equals g1 g2 then some PairCat.dup
  else if A.intersects g1 g2 && !A.touches g1 g2 then some PairCat.ovl
  else if A.distance g1 g2 < t then some PairCat.nr
  else none

/-- The single-geometry classifier loop: for idx in range(n), run
singleStep on geometry geo idx. -/
def runSingle {G : Type} (A : Adapter G) (geo : ℕ → G) (n : ℕ)
    (s : Cats) : Cats :=
  (List.range n).foldl (fun s idx => singleStep A (geo idx) idx s) s

/-- The pair list combinations(range(n), 2): all (i, j) with
i < j < n, in lexicographic order. -/
def pairsUpTo (n : ℕ) : List (ℕ × ℕ) :=
  ((List.range n).map fun i =>
    ((List.range n).filter fun j => decide (i < j)).map fun j => (i, j)).flatten

/-- The pairwise classifier loop: for (idx1, idx2) in
combinations(range(n), 2), run pairStep on the two geometries. -/
def runPairs {G : Type} (A : Adapter G) (t : ℚ) (geo : ℕ → G) (n : ℕ)
    (s : Cats) : Cats :=
  (pairsUpTo n).foldl
    (fun s p => pairStep A t p.1 p.2 (geo p.1) (geo p.2) s) s

/-- The whole classification run: the single-geometry loop followed by
the pairwise loop, starting from empty category sets. -/
def runAll {G : Type} (A : Adapter G) (t : ℚ) (geo : ℕ → G) (n : ℕ) : Cats :=
  runPairs A t geo n (runSingle A geo n Cats.empty)

/-- The extraction order of the flagged subset: sorted(sets[all]) at
topocontrol.py line 142, the ascending sort of the union set. -/
def extractIdx (s : Finset ℕ) : List ℕ :=
  s.sort (· ≤ ·)

/-- The union-invariant of the state: sets[all] equals the union of the
five category sets. -/
def allUnion (s : Cats) : Prop :=
  s.all = s.selfcross ∪ s.invalid ∪ s.duplicate ∪ s.overlap ∪ s.near

instance : DecidablePred allUnion := fun s => by
  unfold allUnion; infer_instance

/-- The adapter with fallible predicates: a predicate invocation may
raise (shapely errors on malformed records). The isinstance checks
cannot raise. This variant models how topocontrol.py behaves when a
predicate call raises a Python exception. -/
structure FAdapter (G : Type) where
  isLineString : G → Bool
  isBaseGeometry : G → Bool
  is_simple : G → Except String Bool
  is_valid : G → Except String Bool
  equals : G → G → Except String Bool
  intersects : G → G → Except String Bool
  touches : G → G → Except String Bool
  distance : G → G → Except String ℚ

/-- One single-geometry iteration under fallible predicates, with the
Python short-circuit evaluation order of lines 106-111: is_simple is
only invoked on LineStrings, is_valid only when the first condition was
false and the value is a BaseGeometry. The loop body has no
try/except, so a raised exception propagates. -/
def singleStepE {G : Type} (A : FAdapter G) (g : G) (idx : ℕ) (s : Cats) :
    Except String Cats := do
  let c1 ← if A.isLineString g then do pure (!(← A.is_simple g))
           else pure false
  if c1 then
    pure { s with selfcross := insert idx s.selfcross, all := insert idx s.all }
  else
    let c2 ← if A.isBaseGeometry g then do pure (!(← A.is_valid g))
             else pure false
    if c2 then
      pure { s with invalid := insert idx s.invalid, all := insert idx s.all }
    else
      pure s

/-- One pairwise iteration under fallible predicates, with the Python
short-circuit evaluation order of lines 118-123: touches is only
invoked when intersects returned true, distance only when the first
two conditions were false. A raised exception propagates. -/
def pairStepE {G : Type} (A : FAdapter G) (t : ℚ) (i j : ℕ) (g1 g2 : G)
    (s : Cats) : Except String Cats := do
  if (← A.equals g1 g2) then
    pure { s with duplicate := insert i (insert j s.duplicate),
                  all := insert i (insert j s.all) }
  else
    let c2 ← if (← A.intersects g1 g2) then do pure (!(← A.touches g1 g2))
             else pure false
    if c2 then
      pure { s with overlap := insert i (insert j s.overlap),
                    all := insert i (insert j s.all) }
    else if (← A.distance g1 g2) < t then
      pure { s with near := insert i (insert j s.near),
                    all := insert i (insert j s.all) }
    else
      pure s

/-- The single-geometry loop under fallible predicates: the first
exception aborts the loop (no handler in main). -/
def runSingleE {G : Type} (A : FAdapter G) (geo : ℕ → G) (n : ℕ)
    (s : Cats) : Except String Cats :=
  (List.range n).foldlM (fun s idx => singleStepE A (geo idx) idx s) s

/-- The pairwise loop under fallible predicates: the first exception
aborts the loop. -/
def runPairsE {G : Type} (A : FAdapter G) (t : ℚ) (geo : ℕ → G) (n : ℕ)
    (s : Cats) : Except String Cats :=
  (pairsUpTo n).foldlM
    (fun s p => pairStepE A t p.1 p.2 (geo p.1) (geo p.2) s) s

/-- The whole run under fallible predicates: an exception raised in
either loop propagates out of main and aborts the run, producing no
category sets. -/
def runAllE {G : Type} (A : FAdapter G) (t : ℚ) (geo : ℕ → G) (n : ℕ) :
    Except String Cats := do
  let s ← runSingleE A geo n Cats.empty
  runPairsE A t geo n s

/-- A concrete total adapter over natural-number geometry ids, used to
instantiate hypotheses at concrete inputs: no LineStrings, every value
a valid BaseGeometry, no pair equal, intersecting or touching, all
distances zero. -/
def constAdapter : Adapter ℕ where
  isLineString := fun _ => false
  isBaseGeometry := fun _ => true
  is_simple := fun _ => true
  is_valid := fun _ => true
  equals := fun _ _ => false
  intersects := fun _ _ => false
  touches := fun _ _ => false
  distance := fun _ _ => 0

/-- A concrete fallible adapter whose is_valid predicate raises on
geometry 0 and succeeds elsewhere; all other predicates succeed. -/
def boomAdapter : FAdapter ℕ where
  isLineString := fun _ => false
  isBaseGeometry := fun _ => true
  is_simple := fun _ => Except.ok true
  is_valid := fun g => if g = 0 then Except.error "boom" else Except.ok true
  equals := fun _ _ => Except.ok false
  intersects := fun _ _ => Except.ok false
  touches := fun _ _ => Except.ok false
  distance := fun _ _ => Except.ok 0

/-- A concrete fallible adapter whose single-geometry predicates all
succeed but whose pairwise equals predicate raises on every pair. -/
def pairBoomAdapter : FAdapter ℕ where
  isLineString := fun _ => false
  isBaseGeometry := fun _ => true
  is_simple := fun _ => Except.ok true
  is_valid := fun _ => Except.ok true
  equals := fun _ _ => Except.error "pairboom"
  intersects := fun _ _ => Except.ok false
  touches := fun _ _ => Except.ok false
  distance := fun _ _ => Except.ok 0

/-- Claim C1: for every pair of distinct indices, the pairwise cascade
assigns the pair to at most one of duplicate, overlap, near, in strict
priority order: duplicate when the geometries are equal; else overlap
when they intersect and do not touch; else near when their distance is
strictly below the threshold; else nothing. Both indices of a matching
pair are added to the matched category set, and the other two pairwise
category sets are unchanged. Exactly one of the four cases applies. -/
theorem pair_cascade_exclusive {G : Type} (A : Adapter G) (t : ℚ) (i j : ℕ)
    (g1 g2 : G) (s : Cats) :
    (A.equals g1 g2 = true ∧
       (pairStep A t i j g1 g2 s).duplicate = insert i (insert j s.duplicate) ∧
       (pairStep A t i j g1 g2 s).overlap = s.overlap ∧
       (pairStep A t i j g1 g2 s).near = s.near)
  ∨ (A.equals g1 g2 = false ∧
       A.intersects g1 g2 = true ∧ A.touches g1 g2 = false ∧
       (pairStep A t i j g1 g2 s).overlap = insert i (insert j s.overlap) ∧
       (pairStep A t i j g1 g2 s).duplicate = s.duplicate ∧
       (pairStep A t i j g1 g2 s).near = s.near)
  ∨ (A.equals g1 g2 = false ∧
       ¬(A.intersects g1 g2 = true ∧ A.touches g1 g2 = false) ∧
       A.distance g1 g2 < t ∧
       (pairStep A t i j g1 g2 s).near = insert i (insert j s.near) ∧
       (pairStep A t i j g1 g2 s).duplicate = s.duplicate ∧
       (pairStep A t i j g1 g2 s).overlap = s.overlap)
  ∨ (A.equals g1 g2 = false ∧
       ¬(A.intersects g1 g2 = true ∧ A.touches g1 g2 = false) ∧
       ¬(A.distance g1 g2 < t) ∧
       pairStep A t i j g1 g2 s = s) := by
  unfold pairStep
  cases heq : A.equals g1 g2 with
  | true =>
    left; simp [heq]
  | false =>
    cases hin : A.intersects g1 g2 <;> cases hto : A.touches g1 g2 <;>
      by_cases hd : A.distance g1 g2 < t <;>
      simp [heq, hin, hto, hd]

/-- Claim C2: for each geometry record, independently of the others,
the single-geometry classifier adds its index to selfcross when the
geometry is a LineString and not simple; else to invalid when it is a
BaseGeometry that fails the validity predicate; else to neither. The
two categories are mutually exclusive per object, first match wins: a
self-crossing line leaves invalid unchanged, and vice versa. -/
theorem single_cascade_exclusive {G : Type} (A : Adapter G) (g : G)
    (idx : ℕ) (s : Cats) :
    (A.isLineString g = true ∧ A.is_simple g = false ∧
       (singleStep A g idx s).selfcross = insert idx s.selfcross ∧
       (singleStep A g idx s).invalid = s.invalid)
  ∨ (¬(A.isLineString g = true ∧ A.is_simple g = false) ∧
       A.isBaseGeometry g = true ∧ A.is_valid g = false ∧
       (singleStep A g idx s).invalid = insert idx s.invalid ∧
       (singleStep A g idx s).selfcross = s.selfcross)
  ∨ (¬(A.isLineString g = true ∧ A.is_simple g = false) ∧
       ¬(A.isBaseGeometry g = true ∧ A.is_valid g = false) ∧
       singleStep A g idx s = s) := by
  unfold singleStep
  cases hL : A.isLineString g <;> cases hS : A.is_simple g <;>
    cases hB : A.isBaseGeometry g <;> cases hV : A.is_valid g <;>
    simp [hL, hS, hB, hV]

theorem singleStep_allUnion {G : Type} (A : Adapter G) (g : G) (idx : ℕ)
    (s : Cats) (h : allUnion s) : allUnion (singleStep A g idx s) := by
  unfold allUnion at h ⊢
  unfold singleStep
  split
  · show insert idx s.all = insert idx s.selfcross ∪ s.invalid ∪ s.duplicate
      ∪ s.overlap ∪ s.near
    rw [h]; ext x
    simp only [Finset.mem_insert, Finset.mem_union]
    tauto
  · split
    · show insert idx s.all = s.selfcross ∪ insert idx s.invalid ∪ s.duplicate
        ∪ s.overlap ∪ s.near
      rw [h]; ext x
      simp only [Finset.mem_insert, Finset.mem_union]
      tauto
    · exact h

theorem pairStep_allUnion {G : Type} (A : Adapter G) (t : ℚ) (i j : ℕ)
    (g1 g2 : G) (s : Cats) (h : allUnion s) :
    allUnion (pairStep A t i j g1 g2 s) := by
  unfold allUnion at h ⊢
  unfold pairStep
  split
  · show insert i (insert j s.all) = s.selfcross ∪ s.invalid
      ∪ insert i (insert j s.duplicate) ∪ s.overlap ∪ s.near
    rw [h]; ext x
    simp only [Finset.mem_insert, Finset.mem_union]
    tauto
  · split
    · show insert i (insert j s.all) = s.selfcross ∪ s.invalid ∪ s.duplicate
        ∪ insert i (insert j s.overlap) ∪ s.near
      rw [h]; ext x
      simp only [Finset.mem_insert, Finset.mem_union]
      tauto
    · split
      · show insert i (insert j s.all) = s.selfcross ∪ s.invalid ∪ s.duplicate
          ∪ s.overlap ∪ insert i (insert j s.near)
        rw [h]; ext x
        simp only [Finset.mem_insert, Finset.mem_union]
        tauto
      · exact h

theorem runSingle_allUnion {G : Type} (A : Adapter G) (geo : ℕ → G) (n : ℕ)
    (s : Cats) (h : allUnion s) : allUnion (runSingle A geo n s) := by
  unfold runSingle
  suffices H : ∀ (L : List ℕ) (s : Cats), allUnion s →
      allUnion (L.foldl (fun s idx => singleStep A (geo idx) idx s) s) from
    H _ s h
  intro L
  induction L with
  | nil => intro s h; exact h
  | cons a L ih =>
    intro s h
    exact ih _ (singleStep_allUnion A (geo a) a s h)

theorem runPairs_allUnion {G : Type} (A : Adapter G) (t : ℚ) (geo : ℕ → G)
    (n : ℕ) (s : Cats) (h : allUnion s) : allUnion (runPairs A t geo n s) := by
  unfold runPairs
  suffices H : ∀ (L : List (ℕ × ℕ)) (s : Cats), allUnion s →
      allUnion (L.foldl (fun s p => pairStep A t p.1 p.2 (geo p.1) (geo p.2) s) s) from
    H _ s h
  intro L
  induction L with
  | nil => intro s h; exact h
  | cons a L ih =>
    intro s h
    exact ih _ (pairStep_allUnion A t a.1 a.2 (geo a.1) (geo a.2) s h)

theorem mem_pairsUpTo {p : ℕ × ℕ} {n : ℕ} :
    p ∈ pairsUpTo n ↔ p.1 < p.2 ∧ p.2 < n := by
  obtain ⟨i, j⟩ := p
  unfold pairsUpTo
  rw [List.mem_flatten]
  constructor
  · rintro ⟨l, hl, hmem⟩
    obtain ⟨a, _, rfl⟩ := List.mem_map.mp hl
    obtain ⟨b, hb, hpair⟩ := List.mem_map.mp hmem
    obtain ⟨hbn, hab⟩ := List.mem_filter.mp hb
    cases hpair
    exact ⟨by simpa using hab, List.mem_range.mp hbn⟩
  · rintro ⟨hij, hjn⟩
    exact ⟨_, List.mem_map.mpr ⟨i, List.mem_range.mpr (lt_trans hij hjn), rfl⟩,
      List.mem_map.mpr ⟨j, List.mem_filter.mpr
        ⟨List.mem_range.mpr hjn, by simpa using hij⟩, rfl⟩⟩

theorem singleStep_all_subset {G : Type} (A : Adapter G) (g : G) (idx n : ℕ)
    (s : Cats) (hidx : idx < n) (h : s.all ⊆ Finset.range n) :
    (singleStep A g idx s).all ⊆ Finset.range n := by
  unfold singleStep
  split
  · exact Finset.insert_subset (Finset.mem_range.mpr hidx) h
  · split
    · exact Finset.insert_subset (Finset.mem_range.mpr hidx) h
    · exact h

theorem pairStep_all_subset {G : Type} (A : Adapter G) (t : ℚ) (i j n : ℕ)
    (g1 g2 : G) (s : Cats) (hi : i < n) (hj : j < n)
    (h : s.all ⊆ Finset.range n) :
    (pairStep A t i j g1 g2 s).all ⊆ Finset.range n := by
  unfold pairStep
  split
  · exact Finset.insert_subset (Finset.mem_range.mpr hi)
      (Finset.insert_subset (Finset.mem_range.mpr hj) h)
  · split
    · exact Finset.insert_subset (Finset.mem_range.mpr hi)
        (Finset.insert_subset (Finset.mem_range.mpr hj) h)
    · split
      · exact Finset.insert_subset (Finset.mem_range.mpr hi)
          (Finset.insert_subset (Finset.mem_range.mpr hj) h)
      · exact h

theorem runSingle_all_subset {G : Type} (A : Adapter G) (geo : ℕ → G) (n : ℕ)
    (s : Cats) (h : s.all ⊆ Finset.range n) :
    (runSingle A geo n s).all ⊆ Finset.range n := by
  unfold runSingle
  suffices H : ∀ (L : List ℕ), (∀ idx ∈ L, idx < n) → ∀ s : Cats,
      s.all ⊆ Finset.range n →
      (L.foldl (fun s idx => singleStep A (geo idx) idx s) s).all ⊆ Finset.range n from
    H _ (fun idx hm => List.mem_range.mp hm) s h
  intro L
  induction L with
  | nil => intro _ s h; exact h
  | cons a L ih =>
    intro hb s h
    exact ih (fun idx hm => hb idx (List.mem_cons_of_mem a hm)) _
      (singleStep_all_subset A (geo a) a n s (hb a (List.mem_cons_self a L)) h)

theorem runPairs_all_subset {G : Type} (A : Adapter G) (t : ℚ) (geo : ℕ → G)
    (n : ℕ) (s : Cats) (h : s.all ⊆ Finset.range n) :
    (runPairs A t geo n s).all ⊆ Finset.range n := by
  unfold runPairs
  suffices H : ∀ (L : List (ℕ × ℕ)), (∀ p ∈ L, p.1 < n ∧ p.2 < n) → ∀ s : Cats,
      s.all ⊆ Finset.range n →
      (L.foldl (fun s p => pairStep A t p.1 p.2 (geo p.1) (geo p.2) s) s).all
        ⊆ Finset.range n from
    H _ (fun p hm => by
      have := mem_pairsUpTo.mp hm
      exact ⟨lt_trans this.1 this.2, this.2⟩) s h
  intro L
  induction L with
  | nil => intro _ s h; exact h
  | cons a L ih =>
    intro hb s h
    exact ih (fun p hm => hb p (List.mem_cons_of_mem a hm)) _
      (pairStep_all_subset A t a.1 a.2 n (geo a.1) (geo a.2) s
        (hb a (List.mem_cons_self a L)).1 (hb a (List.mem_cons_self a L)).2 h)

/-- Claim C3: the flagged set all equals the union
selfcross, invalid, duplicate, overlap, near at every point: the
equality is preserved by each insertion step of both classifier loops,
holds for the final run state, and the cardinality of all is at most
the number n of input geometries. -/
theorem union_invariant {G : Type} (A : Adapter G) (t : ℚ) (geo : ℕ → G)
    (n : ℕ) :
    (∀ (g : G) (idx : ℕ) (s : Cats), allUnion s →
       allUnion (singleStep A g idx s))
  ∧ (∀ (i j : ℕ) (g1 g2 : G) (s : Cats), allUnion s →
       allUnion (pairStep A t i j g1 g2 s))
  ∧ allUnion (runSingle A geo n Cats.empty)
  ∧ allUnion (runAll A t geo n)
  ∧ (runAll A t geo n).all.card ≤ n := by
  have hempty : allUnion Cats.empty := by
    unfold allUnion Cats.empty; simp
  have hsub : (runAll A t geo n).all ⊆ Finset.range n := by
    unfold runAll
    exact runPairs_all_subset A t geo n _
      (runSingle_all_subset A geo n Cats.empty (by simp [Cats.empty]))
  refine ⟨fun g idx s h => singleStep_allUnion A g idx s h,
          fun i j g1 g2 s h => pairStep_allUnion A t i j g1 g2 s h,
          runSingle_allUnion A geo n Cats.empty hempty,
          runPairs_allUnion A t geo n _ (runSingle_allUnion A geo n Cats.empty hempty),
          ?_⟩
  calc (runAll A t geo n).all.card ≤ (Finset.range n).card :=
        Finset.card_le_card hsub
    _ = n := Finset.card_range n

/-- Witness for claim C3: the invariant facts instantiated at a
concrete adapter, threshold 1, the identity geometry map and two
records. -/
theorem union_invariant_witness :
    allUnion (singleStep constAdapter 5 0 Cats.empty)
  ∧ allUnion (runAll constAdapter 1 (fun i => i) 2)
  ∧ (runAll constAdapter 1 (fun i => i) 2).all.card ≤ 2 := by
  refine ⟨(union_invariant constAdapter 1 (fun i => i) 2).1 5 0 Cats.empty
      (by decide),
    (union_invariant constAdapter 1 (fun i => i) 2).2.2.2.1,
    (union_invariant constAdapter 1 (fun i => i) 2).2.2.2.2⟩

theorem pairStep_near_mono {G : Type} (A : Adapter G) (t1 t2 : ℚ)
    (ht : t1 ≤ t2) (i j : ℕ) (g1 g2 : G) (s1 s2 : Cats)
    (h : s1.near ⊆ s2.near) :
    (pairStep A t1 i j g1 g2 s1).near ⊆ (pairStep A t2 i j g1 g2 s2).near := by
  unfold pairStep
  cases heq : A.equals g1 g2 with
  | true => simpa [heq] using h
  | false =>
    cases hio : A.intersects g1 g2 && !A.touches g1 g2 with
    | true => simpa [heq, hio] using h
    | false =>
      by_cases hd1 : A.distance g1 g2 < t1
      · have hd2 : A.distance g1 g2 < t2 := lt_of_lt_of_le hd1 ht
        simpa [heq, hio, hd1, hd2] using
          Finset.insert_subset_insert i (Finset.insert_subset_insert j h)
      · by_cases hd2 : A.distance g1 g2 < t2
        · simp only [heq, hio, hd1, hd2, if_pos, if_neg, if_false,
            Bool.false_eq_true, ite_false, ite_true]
          exact h.trans ((Finset.subset_insert j s2.near).trans
            (Finset.subset_insert i (insert j s2.near)))
        · simpa [heq, hio, hd1, hd2] using h

theorem runPairs_near_mono {G : Type} (A : Adapter G) (t1 t2 : ℚ)
    (ht : t1 ≤ t2) (geo : ℕ → G) (n : ℕ) (s1 s2 : Cats)
    (h : s1.near ⊆ s2.near) :
    (runPairs A t1 geo n s1).near ⊆ (runPairs A t2 geo n s2).near := by
  unfold runPairs
  suffices H : ∀ (L : List (ℕ × ℕ)) (s1 s2 : Cats), s1.near ⊆ s2.near →
      (L.foldl (fun s p => pairStep A t1 p.1 p.2 (geo p.1) (geo p.2) s) s1).near ⊆
      (L.foldl (fun s p => pairStep A t2 p.1 p.2 (geo p.1) (geo p.2) s) s2).near from
    H _ s1 s2 h
  intro L
  induction L with
  | nil => intro s1 s2 h; exact h
  | cons a L ih =>
    intro s1 s2 h
    exact ih _ _ (pairStep_near_mono A t1 t2 ht a.1 a.2 (geo a.1) (geo a.2) s1 s2 h)

/-- Claim C4: for a fixed geometry collection, the classification is
monotone in the proximity threshold: for thresholds t1 at most t2, the
near set produced with t1 is a subset of the near set produced with
t2. The duplicate and overlap branches do not depend on the threshold. -/
theorem near_monotone {G : Type} (A : Adapter G) (geo : ℕ → G) (n : ℕ)
    (t1 t2 : ℚ) (ht : t1 ≤ t2) :
    (runAll A t1 geo n).near ⊆ (runAll A t2 geo n).near := by
  unfold runAll
  exact runPairs_near_mono A t1 t2 ht geo n _ _ (subset_refl _)

/-- Witness for claim C4: the monotonicity instantiated with thresholds
1 and 2 on a concrete two-record collection. -/
theorem near_monotone_witness :
    (runAll constAdapter 1 (fun i => i) 2).near ⊆
    (runAll constAdapter 2 (fun i => i) 2).near :=
  near_monotone constAdapter (fun i => i) 2 1 2 (by norm_num)

/-- Claim C5: pairwise classification is symmetric: when the adapter
predicates equals, intersects, touches and distance are symmetric, the
cascade classifies the ordered pair (g1, g2) exactly as (g2, g1), and
the pairwise step taken for orientation (i, j) produces the same state
as the step for orientation (j, i). -/
theorem pair_symmetric {G : Type} (A : Adapter G) (t : ℚ) (i j : ℕ)
    (g1 g2 : G) (s : Cats)
    (heq : ∀ a b, A.equals a b = A.equals b a)
    (hin : ∀ a b, A.intersects a b = A.intersects b a)
    (hto : ∀ a b, A.touches a b = A.touches b a)
    (hdi : ∀ a b, A.distance a b = A.distance b a) :
    classifyPair A t g1 g2 = classifyPair A t g2 g1 ∧
    pairStep A t i j g1 g2 s = pairStep A t j i g2 g1 s := by
  constructor
  · unfold classifyPair
    rw [heq g1 g2, hin g1 g2, hto g1 g2, hdi g1 g2]
  · unfold pairStep
    rw [heq g1 g2, hin g1 g2, hto g1 g2, hdi g1 g2,
      Finset.Insert.comm i j s.duplicate, Finset.Insert.comm i j s.overlap,
      Finset.Insert.comm i j s.near, Finset.Insert.comm i j s.all]

/-- Witness for claim C5: symmetry instantiated at the constant adapter,
whose pairwise predicates are trivially symmetric. -/
theorem pair_symmetric_witness :
    classifyPair constAdapter 1 3 4 = classifyPair constAdapter 1 4 3 ∧
    pairStep constAdapter 1 0 1 3 4 Cats.empty =
      pairStep constAdapter 1 1 0 4 3 Cats.empty :=
  pair_symmetric constAdapter 1 0 1 3 4 Cats.empty
    (fun _ _ => rfl) (fun _ _ => rfl) (fun _ _ => rfl) (fun _ _ => rfl)

theorem runSingle_congr {G : Type} (A : Adapter G) (geo1 geo2 : ℕ → G)
    (n : ℕ) (s : Cats) (h : ∀ i, i < n → geo1 i = geo2 i) :
    runSingle A geo1 n s = runSingle A geo2 n s := by
  unfold runSingle
  suffices H : ∀ (L : List ℕ), (∀ i ∈ L, geo1 i = geo2 i) → ∀ s : Cats,
      L.foldl (fun s idx => singleStep A (geo1 idx) idx s) s =
      L.foldl (fun s idx => singleStep A (geo2 idx) idx s) s from
    H _ (fun i hm => h i (List.mem_range.mp hm)) s
  intro L
  induction L with
  | nil => intro _ s; rfl
  | cons a L ih =>
    intro hL s
    simp only [List.foldl_cons]
    rw [hL a (List.mem_cons_self a L)]
    exact ih (fun i hm => hL i (List.mem_cons_of_mem a hm)) _

theorem runPairs_congr {G : Type} (A : Adapter G) (t : ℚ) (geo1 geo2 : ℕ → G)
    (n : ℕ) (s : Cats) (h : ∀ i, i < n → geo1 i = geo2 i) :
    runPairs A t geo1 n s = runPairs A t geo2 n s := by
  unfold runPairs
  suffices H : ∀ (L : List (ℕ × ℕ)),
      (∀ p ∈ L, geo1 p.1 = geo2 p.1 ∧ geo1 p.2 = geo2 p.2) → ∀ s : Cats,
      L.foldl (fun s p => pairStep A t p.1 p.2 (geo1 p.1) (geo1 p.2) s) s =
      L.foldl (fun s p => pairStep A t p.1 p.2 (geo2 p.1) (geo2 p.2) s) s from
    H _ (fun p hm => by
      have hp := mem_pairsUpTo.mp hm
      exact ⟨h p.1 (lt_trans hp.1 hp.2), h p.2 hp.2⟩) s
  intro L
  induction L with
  | nil => intro _ s; rfl
  | cons a L ih =>
    intro hL s
    simp only [List.foldl_cons]
    rw [(hL a (List.mem_cons_self a L)).1, (hL a (List.mem_cons_self a L)).2]
    exact ih (fun p hm => hL p (List.mem_cons_of_mem a hm)) _

/-- Claim C6: the classification is deterministic: two runs of the
classifiers on the same geometry collection (pointwise-equal records
over the n indices) and the same threshold produce identical category
states, hence identical category sets and identical per-category and
total counts. -/
theorem run_deterministic {G : Type} (A : Adapter G) (t : ℚ)
    (geo1 geo2 : ℕ → G) (n : ℕ) (h : ∀ i, i < n → geo1 i = geo2 i) :
    runAll A t geo1 n = runAll A t geo2 n ∧
    (runAll A t geo1 n).counts = (runAll A t geo2 n).counts := by
  have hrun : runAll A t geo1 n = runAll A t geo2 n := by
    unfold runAll
    rw [runSingle_congr A geo1 geo2 n Cats.empty h,
      runPairs_congr A t geo1 geo2 n _ h]
  exact ⟨hrun, by rw [hrun]⟩

/-- Witness for claim C6: two concrete record maps that agree on the
two indices of the collection yield the same run state and counts. -/
theorem run_deterministic_witness :
    runAll constAdapter 1 (fun i => i) 2 =
      runAll constAdapter 1 (fun i => if i < 2 then i else 99) 2 ∧
    (runAll constAdapter 1 (fun i => i) 2).counts =
      (runAll constAdapter 1 (fun i => if i < 2 then i else 99) 2).counts :=
  run_deterministic constAdapter 1 (fun i => i)
    (fun i => if i < 2 then i else 99) 2
    (fun i hi => by simp [hi])

/-- Claim C7: the sequence of flagged indices produced for extraction
is the ascending sort of the flagged union set: it is strictly sorted,
duplicate-free, its members are exactly the members of the union set,
and each flagged index appears in it exactly once. -/
theorem extract_sorted {G : Type} (A : Adapter G) (t : ℚ) (geo : ℕ → G)
    (n : ℕ) :
    List.Sorted (· < ·) (extractIdx (runAll A t geo n).all)
  ∧ (extractIdx (runAll A t geo n).all).Nodup
  ∧ (∀ k, k ∈ extractIdx (runAll A t geo n).all ↔ k ∈ (runAll A t geo n).all)
  ∧ (∀ k, (extractIdx (runAll A t geo n).all).count k =
      if k ∈ (runAll A t geo n).all then 1 else 0) := by
  refine ⟨Finset.sort_sorted_lt _, Finset.sort_nodup _ _,
    fun k => Finset.mem_sort _, fun k => ?_⟩
  by_cases hk : k ∈ (runAll A t geo n).all
  · rw [if_pos hk]
    exact List.count_eq_one_of_mem (Finset.sort_nodup _ _)
      ((Finset.mem_sort _).mpr hk)
  · rw [if_neg hk]
    exact List.count_eq_zero_of_not_mem
      (fun hc => hk ((Finset.mem_sort _).mp hc))

/-- Counterexample to claim C8: a fallible adapter whose validity
predicate raises on geometry 0 of a two-record collection. The run is
not protected by any handler, so it aborts with the error instead of
completing with geometry 0 degraded to the invalid category. -/
theorem predicate_failure_aborts_cex :
    runAllE boomAdapter 1 (fun i => i) 2 = Except.error "boom" := rfl

/-- Claim C8 as amended: a predicate-invocation failure on a single
geometry or on a pair IS NOT caught at the adapter boundary: the
classification loops have no handler, so an exception raised in the
single-geometry loop, or raised in the pairwise loop after the
single-geometry loop completed, propagates and aborts the whole run
with that error, producing no category sets at all (the failing object
is neither added to invalid nor skipped, and classification of the
remaining geometries and pairs never completes). -/
theorem predicate_failure_aborts {G : Type} (A : FAdapter G) (t : ℚ)
    (geo : ℕ → G) (n : ℕ) (e : String) :
    (runSingleE A geo n Cats.empty = Except.error e →
       runAllE A t geo n = Except.error e)
  ∧ (∀ s : Cats, runSingleE A geo n Cats.empty = Except.ok s →
       runPairsE A t geo n s = Except.error e →
       runAllE A t geo n = Except.error e) := by
  constructor
  · intro h
    unfold runAllE
    rw [h]
    rfl
  · intro s hs hp
    unfold runAllE
    rw [hs]
    exact hp

/-- Witness for the amended claim C8: the boom adapter fails in the
single-geometry loop of a concrete two-record run and aborts it, and
the pair-boom adapter completes the single-geometry loop, fails on the
first pair and aborts the run as well. -/
theorem predicate_failure_aborts_witness :
    runAllE boomAdapter 1 (fun i => i) 2 = Except.error "boom" ∧
    runAllE pairBoomAdapter 1 (fun i => i) 2 = Except.error "pairboom" :=
  ⟨(predicate_failure_aborts boomAdapter 1 (fun i => i) 2 "boom").1 rfl,
   (predicate_failure_aborts pairBoomAdapter 1 (fun i => i) 2 "pairboom").2
     Cats.empty rfl rfl⟩

/-- Claim C9: a pair of distinct, non-equal geometries that touch at
their boundaries (so the overlap rule excludes them) and whose mutual
distance is zero is classified near for every strictly positive
threshold, and both indices are added to the near set. -/
theorem touching_pair_near {G : Type} (A : Adapter G) (t : ℚ) (i j : ℕ)
    (g1 g2 : G) (s : Cats)
    (hne : A.equals g1 g2 = false) (hto : A.touches g1 g2 = true)
    (hd : A.distance g1 g2 = 0) (hpos : 0 < t) :
    classifyPair A t g1 g2 = some PairCat.nr ∧
    i ∈ (pairStep A t i j g1 g2 s).near ∧
    j ∈ (pairStep A t i j g1 g2 s).near := by
  have hdt : A.distance g1 g2 < t := by rw [hd]; exact hpos
  unfold classifyPair pairStep
  simp [hne, hto, hdt]

/-- Witness for claim C9: a concrete adapter whose two geometries
touch without being equal, at threshold 1. -/
theorem touching_pair_near_witness :
    classifyPair { constAdapter with
        intersects := fun _ _ => true, touches := fun _ _ => true }
      1 0 1 = some PairCat.nr ∧
    0 ∈ (pairStep { constAdapter with
        intersects := fun _ _ => true, touches := fun _ _ => true }
      1 0 1 0 1 Cats.empty).near ∧
    1 ∈ (pairStep { constAdapter with
        intersects := fun _ _ => true, touches := fun _ _ => true }
      1 0 1 0 1 Cats.empty).near :=
  touching_pair_near _ 1 0 1 0 1 Cats.empty rfl rfl rfl (by norm_num)

theorem singleStep_selfcross_mem {G : Type} (A : Adapter G) (g : G)
    (idx k : ℕ) (s : Cats) :
    k ∈ (singleStep A g idx s).selfcross ↔
      k ∈ s.selfcross ∨
      (k = idx ∧ A.isLineString g = true ∧ A.is_simple g = false) := by
  unfold singleStep
  cases hL : A.isLineString g <;> cases hS : A.is_simple g <;>
    cases hB : A.isBaseGeometry g <;> cases hV : A.is_valid g <;>
    simp [hL, hS, hB, hV, Finset.mem_insert] <;> tauto

theorem singleStep_invalid_mem {G : Type} (A : Adapter G) (g : G)
    (idx k : ℕ) (s : Cats) :
    k ∈ (singleStep A g idx s).invalid ↔
      k ∈ s.invalid ∨
      (k = idx ∧ ¬(A.isLineString g = true ∧ A.is_simple g = false) ∧
        A.isBaseGeometry g = true ∧ A.is_valid g = false) := by
  unfold singleStep
  cases hL : A.isLineString g <;> cases hS : A.is_simple g <;>
    cases hB : A.isBaseGeometry g <;> cases hV : A.is_valid g <;>
    simp [hL, hS, hB, hV, Finset.mem_insert] <;> tauto

theorem runSingle_selfcross_mem {G : Type} (A : Adapter G) (geo : ℕ → G)
    (n : ℕ) (s : Cats) (k : ℕ) :
    k ∈ (runSingle A geo n s).selfcross ↔
      k ∈ s.selfcross ∨
      (k < n ∧ A.isLineString (geo k) = true ∧ A.is_simple (geo k) = false) := by
  unfold runSingle
  induction n with
  | zero => simp
  | succ m ih =>
    rw [List.range_succ, List.foldl_append, List.foldl_cons, List.foldl_nil]
    rw [singleStep_selfcross_mem, ih]
    constructor
    · rintro ((h | ⟨hk, hrest⟩) | ⟨rfl, hrest⟩)
      · exact Or.inl h
      · exact Or.inr ⟨lt_trans hk (Nat.lt_succ_self m), hrest⟩
      · exact Or.inr ⟨Nat.lt_succ_self _, hrest⟩
    · rintro (h | ⟨hk, hrest⟩)
      · exact Or.inl (Or.inl h)
      · rcases Nat.lt_succ_iff_lt_or_eq.mp hk with hlt | rfl
        · exact Or.inl (Or.inr ⟨hlt, hrest⟩)
        · exact Or.inr ⟨rfl, hrest⟩

theorem runSingle_invalid_mem {G : Type} (A : Adapter G) (geo : ℕ → G)
    (n : ℕ) (s : Cats) (k : ℕ) :
    k ∈ (runSingle A geo n s).invalid ↔
      k ∈ s.invalid ∨
      (k < n ∧ ¬(A.isLineString (geo k) = true ∧ A.is_simple (geo k) = false) ∧
        A.isBaseGeometry (geo k) = true ∧ A.is_valid (geo k) = false) := by
  unfold runSingle
  induction n with
  | zero => simp
  | succ m ih =>
    rw [List.range_succ, List.foldl_append, List.foldl_cons, List.foldl_nil]
    rw [singleStep_invalid_mem, ih]
    constructor
    · rintro ((h | ⟨hk, hrest⟩) | ⟨rfl, hrest⟩)
      · exact Or.inl h
      · exact Or.inr ⟨lt_trans hk (Nat.lt_succ_self m), hrest⟩
      · exact Or.inr ⟨Nat.lt_succ_self _, hrest⟩
    · rintro (h | ⟨hk, hrest⟩)
      · exact Or.inl (Or.inl h)
      · rcases Nat.lt_succ_iff_lt_or_eq.mp hk with hlt | rfl
        · exact Or.inl (Or.inr ⟨hlt, hrest⟩)
        · exact Or.inr ⟨rfl, hrest⟩

/-- Claim C10: a record whose geometry value is not a geometry object
fails both runtime isinstance guards (LineString for selfcross, the
geometry base type for invalid), so the single-geometry classifier
silently skips it: the step leaves the state unchanged and the index
ends up in neither selfcross nor invalid after the whole single loop. -/
theorem nongeometry_skipped {G : Type} (A : Adapter G) (geo : ℕ → G)
    (idx n : ℕ) (s : Cats)
    (hL : A.isLineString (geo idx) = false)
    (hB : A.isBaseGeometry (geo idx) = false) :
    singleStep A (geo idx) idx s = s ∧
    idx ∉ (runSingle A geo n Cats.empty).selfcross ∧
    idx ∉ (runSingle A geo n Cats.empty).invalid := by
  refine ⟨?_, ?_, ?_⟩
  · unfold singleStep
    rw [hL, hB]
    simp
  · rw [runSingle_selfcross_mem]
    rintro (h | ⟨_, hline, _⟩)
    · simp [Cats.empty] at h
    · rw [hL] at hline; exact Bool.false_ne_true hline
  · rw [runSingle_invalid_mem]
    rintro (h | ⟨_, _, hbase, _⟩)
    · simp [Cats.empty] at h
    · rw [hB] at hbase; exact Bool.false_ne_true hbase

/-- Witness for claim C10: a concrete adapter under which geometry 0
passes neither isinstance check is skipped by a concrete two-record
single loop. -/
theorem nongeometry_skipped_witness :
    singleStep { constAdapter with isBaseGeometry := fun _ => false }
      ((fun i => i) 0) 0 Cats.empty = Cats.empty ∧
    0 ∉ (runSingle { constAdapter with isBaseGeometry := fun _ => false }
      (fun i => i) 2 Cats.empty).selfcross ∧
    0 ∉ (runSingle { constAdapter with isBaseGeometry := fun _ => false }
      (fun i => i) 2 Cats.empty).invalid :=
  nongeometry_skipped { constAdapter with isBaseGeometry := fun _ => false }
    (fun i => i) 0 2 Cats.empty rfl rfl
